import Mathlib

/-!
Shallow embedding of the tag store and the channel-listing renderer of a
Discord play-by-post bot (files database.py and bot.py).

The store is a single SQLite table
  tags(id INTEGER NOT NULL PRIMARY KEY, name, channel, scene, npc, level)
modelled as a list of rows in rowid order.  The id column is a rowid alias
without AUTOINCREMENT, so SQLite assigns a freshly inserted row the rowid
one greater than the largest rowid currently in use (1 for an empty
table); this allocation rule is modelled by nextId below.  Full-table
scans and WHERE filters return rows in rowid order, which coincides with
list order because every insert appends a row whose id exceeds all ids
present.
-/

namespace LitmPbp

/-- Row type of the tags table (dataclass Tag of database.py).  The three
optional columns are nullable in the schema and default to NULL. -/
structure Tag where
  id : Int
  name : String
  channel : String
  scene : Option String
  npc : Option String
  level : Option Int
  deriving Repr, DecidableEq

/-- The persistent state of class Database of database.py: the contents of
the tags table, kept in rowid order. -/
structure Database where
  rows : List Tag
  deriving Repr, DecidableEq

/-- The rowid SQLite hands to the next INSERT: one more than the largest
rowid currently in use, 1 when the table is empty (no AUTOINCREMENT in the
schema of Database.init_db). -/
def nextId (db : Database) : Int :=
  db.rows.foldl (fun m t => max m t.id) 0 + 1

/-- Database.create_tag: INSERT the new row (rowid assigned by SQLite) and
return the Tag built from cursor.lastrowid and the arguments. -/
def Database.create_tag (db : Database) (name channel : String)
    (scene npc : Option String) (level : Option Int) : Tag × Database :=
  let t : Tag := { id := nextId db, name := name, channel := channel,
                   scene := scene, npc := npc, level := level }
  (t, ⟨db.rows ++ [t]⟩)

/-- Database.get_tag: SELECT ... WHERE id = ? and fetchone, i.e. the first
row in rowid order whose id matches. -/
def Database.get_tag (db : Database) (tag_id : Int) : Option Tag :=
  db.rows.find? (fun t => t.id == tag_id)

/-- Database.get_tags_by_channel: SELECT ... WHERE channel = ?, rows in
rowid order. -/
def Database.get_tags_by_channel (db : Database) (channel : String) : List Tag :=
  db.rows.filter (fun t => t.channel == channel)

/-- Database.update_tag: read the existing row; when absent return None
and leave the table untouched; otherwise build the updated record (each
argument that is not None overrides the stored field, a None argument
keeps it) and UPDATE the row in place. -/
def Database.update_tag (db : Database) (tag_id : Int)
    (name channel scene npc : Option String) (level : Option Int) :
    Option Tag × Database :=
  match db.get_tag tag_id with
  | none => (none, db)
  | some existing =>
    let updated : Tag :=
      { id := tag_id
        name := match name with | some v => v | none => existing.name
        channel := match channel with | some v => v | none => existing.channel
        scene := match scene with | some v => some v | none => existing.scene
        npc := match npc with | some v => some v | none => existing.npc
        level := match level with | some v => some v | none => existing.level }
    (some updated, ⟨db.rows.map (fun t => if t.id == tag_id then updated else t)⟩)

/-- Database.delete_tag: DELETE ... WHERE id = ?; returns rowcount > 0. -/
def Database.delete_tag (db : Database) (tag_id : Int) : Bool × Database :=
  (db.rows.countP (fun t => t.id == tag_id) != 0,
   ⟨db.rows.filter (fun t => t.id != tag_id)⟩)

/-- Row predicate of Database.delete_tags_by_scene: with a None scene the
SQL is WHERE channel = ? AND scene IS NULL, otherwise WHERE channel = ?
AND scene = ? (a NULL stored scene never satisfies scene = ?). -/
def wipePred (channel : String) (scene : Option String) (t : Tag) : Bool :=
  t.channel == channel &&
    (match scene with
     | none => t.scene == none
     | some s => t.scene == some s)

/-- Database.delete_tags_by_scene: bulk DELETE; returns rowcount. -/
def Database.delete_tags_by_scene (db : Database) (channel : String)
    (scene : Option String) : Nat × Database :=
  (db.rows.countP (wipePred channel scene),
   ⟨db.rows.filter (fun t => !(wipePred channel scene t))⟩)

/-- Database.get_all_tags: SELECT every row in rowid order. -/
def Database.get_all_tags (db : Database) : List Tag :=
  db.rows

/-!  The renderer of bot.py.  -/

/-- The level and id display of format_tag uses the Python str() of an int;
toString on Int agrees with it (a plain minus sign for negatives). -/
def format_tag (tag : Tag) : String :=
  let parts : List String := ["**" ++ tag.name ++ "**"]
  let parts := parts ++ (match tag.level with
    | some l => ["[Level: " ++ toString l ++ "]"]
    | none => [])
  let parts := parts ++ ["(ID: " ++ toString tag.id ++ ")"]
  String.intercalate " " parts

/-- Python x or dflt on an optional string x: None and the empty string
are both falsy, every other string is returned unchanged. -/
def pyOr (v : Option String) (dflt : String) : String :=
  match v with
  | none => dflt
  | some s => if s == "" then dflt else s

/-- Group label tag.scene or channel_name from format_tags_by_scene. -/
def sceneLabel (channel_name : String) (t : Tag) : String :=
  pyOr t.scene channel_name

/-- Sub-group label tag.npc or "Story Tags" from format_tags_by_scene. -/
def npcLabel (t : Tag) : String :=
  pyOr t.npc "Story Tags"

/-- The inner defaultdict of format_tags_by_scene: NPC label to list of
tags, in key insertion order. -/
abbrev NpcGroups := List (String × List Tag)

/-- The outer defaultdict of format_tags_by_scene: scene label to NPC
sub-groups, in key insertion order. -/
abbrev SceneGroups := List (String × NpcGroups)

/-- One append by_scene[scene][npc].append(tag) restricted to the inner
dict: an existing key keeps its place and gains the tag at the end of its
list, a new key is appended at the end (dict insertion order). -/
def insertNpc (groups : NpcGroups) (npc_name : String) (t : Tag) : NpcGroups :=
  match groups with
  | [] => [(npc_name, [t])]
  | (k, ts) :: rest =>
    if k == npc_name then (k, ts ++ [t]) :: rest
    else (k, ts) :: insertNpc rest npc_name t

/-- One append by_scene[scene][npc].append(tag) on the outer dict. -/
def insertTag (groups : SceneGroups) (scene_name npc_name : String) (t : Tag) :
    SceneGroups :=
  match groups with
  | [] => [(scene_name, insertNpc [] npc_name t)]
  | (k, npcs) :: rest =>
    if k == scene_name then (k, insertNpc npcs npc_name t) :: rest
    else (k, npcs) :: insertTag rest scene_name npc_name t

/-- The grouping loop of format_tags_by_scene. -/
def groupTags (tags : List Tag) (channel_name : String) : SceneGroups :=
  tags.foldl
    (fun acc t => insertTag acc (sceneLabel channel_name t) (npcLabel t) t) []

/-- The comparison induced by the Python sort key
lambda x: (x != "Story Tags", x): tuples compare by the boolean flag first
(False before True) and by the string second. -/
def npcKeyLe (a b : String) : Bool :=
  if (a == "Story Tags") == (b == "Story Tags") then decide (a ≤ b)
  else a == "Story Tags"

/-- Insert a key into a list sorted by npcKeyLe. -/
def insortNpc (x : String) : List String → List String
  | [] => [x]
  | y :: ys => if npcKeyLe x y then x :: y :: ys else y :: insortNpc x ys

/-- sorted(npcs.keys(), key=lambda x: (x != "Story Tags", x)) as an
insertion sort by npcKeyLe (the keys of a dict are distinct, so every
sort by this total key order yields the same list). -/
def sortNpcKeys (keys : List String) : List String :=
  keys.foldr insortNpc []

/-- Dict access npcs[npc_name]: the value stored under the key. -/
def lookupNpc (groups : NpcGroups) (npc_name : String) : List Tag :=
  match groups with
  | [] => []
  | (k, ts) :: rest => if k == npc_name then ts else lookupNpc rest npc_name

/-- One NPC block of format_tags_by_scene: header plus one indented line
per tag. -/
def renderNpcSection (npc_name : String) (npc_tags : List Tag) : String :=
  let tag_lines := npc_tags.map (fun t => "\t\t" ++ format_tag t)
  "\t**" ++ npc_name ++ "**" ++ "\n" ++ String.intercalate "\n" tag_lines

/-- One scene block of format_tags_by_scene: scene header, then the NPC
blocks in sorted key order. -/
def renderScene (scene_name : String) (npcs : NpcGroups) : String :=
  let sorted_npcs := sortNpcKeys (npcs.map Prod.fst)
  let npc_sections := sorted_npcs.map (fun n => renderNpcSection n (lookupNpc npcs n))
  "__**" ++ scene_name ++ "**__" ++ "\n" ++ String.intercalate "\n" npc_sections

/-- format_tags_by_scene of bot.py: group, then render the scene blocks
in insertion order, joined by blank lines. -/
def format_tags_by_scene (tags : List Tag) (channel_name : String) : String :=
  String.intercalate "\n\n"
    ((groupTags tags channel_name).map (fun g => renderScene g.1 g.2))

/-- The message sent by the tags command (list_tags of bot.py) for a
channel whose stored tags are the given list. -/
def list_tags (tags : List Tag) (channel_name : String) : String :=
  if tags.isEmpty then "No tags in this channel."
  else format_tags_by_scene tags channel_name

/-!  Characterisations used by the theorem statements.  -/

/-- First-occurrence order of a list of labels: the key order a Python
dict reaches after inserting the labels left to right. -/
def firstSeen (labels : List String) : List String :=
  labels.foldl (fun seen x => if seen.contains x then seen else seen ++ [x]) []

/-- Replace an empty-string scene or npc by an unset one, leaving every
other field alone. -/
def normalizeEmpty (t : Tag) : Tag :=
  { t with scene := if t.scene == some "" then none else t.scene,
           npc := if t.npc == some "" then none else t.npc }

/-- Store states reachable from an empty table by the operations the bot
issues. -/
inductive Reachable : Database → Prop where
  | init : Reachable ⟨[]⟩
  | create (db : Database) (n c : String) (s p : Option String) (l : Option Int) :
      Reachable db → Reachable (db.create_tag n c s p l).2
  | update (db : Database) (i : Int) (n c s p : Option String) (l : Option Int) :
      Reachable db → Reachable (db.update_tag i n c s p l).2
  | deleteOne (db : Database) (i : Int) :
      Reachable db → Reachable (db.delete_tag i).2
  | wipe (db : Database) (c : String) (s : Option String) :
      Reachable db → Reachable (db.delete_tags_by_scene c s).2

/-!  Helper lemmas about the store.  -/

theorem foldl_max_init_le (l : List Tag) (init : Int) :
    init ≤ l.foldl (fun m t => max m t.id) init := by
  induction l generalizing init with
  | nil => simp
  | cons x xs ih =>
    simp only [List.foldl_cons]
    exact le_trans (le_max_left init x.id) (ih (max init x.id))

theorem mem_id_le_foldl_max (l : List Tag) (t : Tag) (ht : t ∈ l) (init : Int) :
    t.id ≤ l.foldl (fun m t => max m t.id) init := by
  induction l generalizing init with
  | nil => cases ht
  | cons x xs ih =>
    simp only [List.foldl_cons]
    rcases List.mem_cons.mp ht with h | h
    · subst h
      exact le_trans (le_max_right init t.id) (foldl_max_init_le xs _)
    · exact ih h _

/-- Every id already in the table is strictly below the rowid SQLite will
assign to the next insert. -/
theorem id_lt_nextId (db : Database) (t : Tag) (ht : t ∈ db.rows) :
    t.id < nextId db := by
  have h := mem_id_le_foldl_max db.rows t ht 0
  unfold nextId
  omega

theorem countP_add_length_filter_not {α : Type} (p : α → Bool) (l : List α) :
    l.countP p + (l.filter (fun a => !(p a))).length = l.length := by
  induction l with
  | nil => rfl
  | cons x xs ih =>
    by_cases h : p x = true <;>
      simp [List.countP_cons, List.filter_cons, h] <;> omega

/-- The Bool row predicate of the bulk delete holds exactly on rows of the
channel whose stored scene equals the request (NULL matching only NULL). -/
theorem wipePred_eq_true_iff (ch : String) (scene : Option String) (t : Tag) :
    wipePred ch scene t = true ↔ (t.channel = ch ∧ t.scene = scene) := by
  cases scene <;> simp [wipePred]

/-!  Claim theorems about the store.  -/

/-- Claim C2: for every channel and store state, delete_tags_by_scene with
a null scene removes exactly the tags of the channel whose scene is unset
(never one whose scene equals a literal string), with a string s exactly
those whose scene equals s, and the returned count equals the number of
rows removed. -/
theorem c2_delete_by_scene_exact (db : Database) (ch : String)
    (scene : Option String) (t : Tag) :
    (t ∈ ((db.delete_tags_by_scene ch scene).2).rows
      ↔ t ∈ db.rows ∧ ¬(t.channel = ch ∧ t.scene = scene))
    ∧ (db.delete_tags_by_scene ch scene).1
        + ((db.delete_tags_by_scene ch scene).2).rows.length = db.rows.length := by
  constructor
  · constructor
    · intro hmem
      have h1 := List.mem_filter.mp hmem
      refine ⟨h1.1, ?_⟩
      intro hc
      have h2 := h1.2
      rw [Bool.not_eq_true'] at h2
      rw [← wipePred_eq_true_iff ch scene t] at hc
      rw [hc] at h2
      cases h2
    · rintro ⟨hmem, hnc⟩
      apply List.mem_filter.mpr
      refine ⟨hmem, ?_⟩
      rw [Bool.not_eq_true']
      cases hw : wipePred ch scene t
      · rfl
      · exact absurd ((wipePred_eq_true_iff ch scene t).mp hw) hnc
  · exact countP_add_length_filter_not (wipePred ch scene) db.rows

/-- Claim C5: creating a tag and then fetching it by the id returned from
create yields exactly the record create returned. -/
theorem c5_create_then_get_roundtrip (db : Database) (n c : String)
    (s p : Option String) (l : Option Int) :
    ((db.create_tag n c s p l).2).get_tag ((db.create_tag n c s p l).1).id
      = some (db.create_tag n c s p l).1 := by
  unfold Database.create_tag Database.get_tag
  simp only
  rw [List.find?_append]
  have h1 : db.rows.find? (fun t => t.id == nextId db) = none := by
    rw [List.find?_eq_none]
    intro x hx
    simp only [beq_iff_eq]
    exact ne_of_lt (id_lt_nextId db x hx)
  rw [h1]
  simp

/-- Claim C6: delete_tag returns true exactly when a row with the id
existed; afterwards get_tag finds nothing and a second delete_tag with no
intervening create returns false. -/
theorem c6_delete_semantics (db : Database) (i : Int) :
    ((db.delete_tag i).1 = true ↔ db.get_tag i ≠ none)
    ∧ ((db.delete_tag i).2).get_tag i = none
    ∧ (((db.delete_tag i).2).delete_tag i).1 = false := by
  refine ⟨?_, ?_, ?_⟩
  · unfold Database.delete_tag Database.get_tag
    simp only [bne_iff_ne, ne_eq]
    constructor
    · intro h hn
      rw [List.find?_eq_none] at hn
      exact h (List.countP_eq_zero.mpr hn)
    · intro h hz
      apply h
      rw [List.find?_eq_none]
      exact List.countP_eq_zero.mp hz
  · unfold Database.delete_tag Database.get_tag
    simp only
    rw [List.find?_eq_none]
    intro x hx
    have := (List.mem_filter.mp hx).2
    simpa using this
  · unfold Database.delete_tag
    simp only
    have hz : List.countP (fun t => t.id == i)
        (List.filter (fun t => t.id != i) db.rows) = 0 := by
      rw [List.countP_eq_zero]
      intro x hx
      have := (List.mem_filter.mp hx).2
      simpa using this
    rw [hz]
    rfl

/-- Claim C7: update_tag on an id that resolves to no row returns the
NotFound signal (None) and leaves the table completely unchanged. -/
theorem c7_update_missing_id (db : Database) (i : Int)
    (name channel scene npc : Option String) (level : Option Int)
    (h : db.get_tag i = none) :
    db.update_tag i name channel scene npc level = (none, db) := by
  unfold Database.update_tag
  rw [h]

/-- Witness for claim C7 at the empty table and id 1. -/
theorem c7_witness :
    Database.update_tag ⟨[]⟩ 1 none none none none none = (none, ⟨[]⟩) :=
  c7_update_missing_id ⟨[]⟩ 1 none none none none none rfl

theorem get_tag_id (db : Database) (i : Int) (ex : Tag)
    (h : db.get_tag i = some ex) : ex.id = i := by
  have h' : db.rows.find? (fun t => t.id == i) = some ex := h
  have := List.find?_some h'
  simpa using this

theorem get_tag_mem (db : Database) (i : Int) (ex : Tag)
    (h : db.get_tag i = some ex) : ex ∈ db.rows := by
  have h' : db.rows.find? (fun t => t.id == i) = some ex := h
  exact List.mem_of_find?_eq_some h'

/-- Rewriting the single row with the matching id leaves the rows with a
different id untouched. -/
theorem filter_ne_map_update (rows : List Tag) (i : Int) (u : Tag) (hu : u.id = i) :
    (rows.map (fun t => if t.id == i then u else t)).filter (fun t => t.id != i)
      = rows.filter (fun t => t.id != i) := by
  induction rows with
  | nil => rfl
  | cons x xs ih =>
    simp only [List.map_cons, List.filter_cons]
    by_cases hx : (x.id == i) = true
    · have hx' : x.id = i := by simpa using hx
      rw [if_pos hx, if_neg (by simp [hu]), if_neg (by simp [hx'])]
      exact ih
    · have hx' : x.id ≠ i := by simpa using hx
      have hb : (x.id != i) = true := by simpa using hx'
      rw [if_neg hx, if_pos hb, if_pos hb, ih]

/-- Claim C4: updating an existing id returns a record whose supplied
fields take the supplied values and whose omitted fields keep the prior
stored values; the updated record is stored, and every row with a
different id is exactly as before. -/
theorem c4_partial_update_frame (db : Database) (i : Int)
    (name channel scene npc : Option String) (level : Option Int) (ex : Tag)
    (hex : db.get_tag i = some ex) :
    ∃ u, (db.update_tag i name channel scene npc level).1 = some u
      ∧ u.id = i
      ∧ (name = none → u.name = ex.name)
      ∧ (∀ v, name = some v → u.name = v)
      ∧ (channel = none → u.channel = ex.channel)
      ∧ (∀ v, channel = some v → u.channel = v)
      ∧ (scene = none → u.scene = ex.scene)
      ∧ (∀ v, scene = some v → u.scene = some v)
      ∧ (npc = none → u.npc = ex.npc)
      ∧ (∀ v, npc = some v → u.npc = some v)
      ∧ (level = none → u.level = ex.level)
      ∧ (∀ v, level = some v → u.level = some v)
      ∧ u ∈ ((db.update_tag i name channel scene npc level).2).rows
      ∧ ((db.update_tag i name channel scene npc level).2).rows.filter
            (fun t => t.id != i)
          = db.rows.filter (fun t => t.id != i) := by
  unfold Database.update_tag
  rw [hex]
  refine ⟨_, rfl, rfl, ?_, ?_, ?_, ?_, ?_, ?_, ?_, ?_, ?_, ?_, ?_, ?_⟩
  · intro h; subst h; rfl
  · intro v hv; subst hv; rfl
  · intro h; subst h; rfl
  · intro v hv; subst hv; rfl
  · intro h; subst h; rfl
  · intro v hv; subst hv; rfl
  · intro h; subst h; rfl
  · intro v hv; subst hv; rfl
  · intro h; subst h; rfl
  · intro v hv; subst hv; rfl
  · exact List.mem_map.mpr ⟨ex, get_tag_mem db i ex hex, by
      simp [get_tag_id db i ex hex]⟩
  · exact filter_ne_map_update db.rows i _ rfl

/-- Claim C10: a None argument to update_tag keeps the prior value of the
field, exactly as an omitted argument does (the Python default is None),
so no update can return scene, npc or level to the unset state once they
hold a value. -/
theorem c10_null_field_keeps_value (db : Database) (i : Int)
    (name channel scene npc : Option String) (level : Option Int) (ex u : Tag)
    (hex : db.get_tag i = some ex)
    (hu : (db.update_tag i name channel scene npc level).1 = some u) :
    (scene = none → u.scene = ex.scene)
    ∧ (npc = none → u.npc = ex.npc)
    ∧ (level = none → u.level = ex.level)
    ∧ (ex.scene ≠ none → u.scene ≠ none)
    ∧ (ex.npc ≠ none → u.npc ≠ none)
    ∧ (ex.level ≠ none → u.level ≠ none) := by
  unfold Database.update_tag at hu
  rw [hex] at hu
  simp only [Option.some.injEq] at hu
  subst hu
  refine ⟨?_, ?_, ?_, ?_, ?_, ?_⟩
  · intro h; subst h; rfl
  · intro h; subst h; rfl
  · intro h; subst h; rfl
  · intro h
    cases scene with
    | none => simpa using h
    | some v => simp
  · intro h
    cases npc with
    | none => simpa using h
    | some v => simp
  · intro h
    cases level with
    | none => simpa using h
    | some v => simp

/-- A sample row and one-row table used by the witnesses. -/
def sampleTag : Tag :=
  { id := 1, name := "goblin", channel := "general",
    scene := some "Cave", npc := some "Bob", level := some 3 }

def sampleDb : Database := ⟨[sampleTag]⟩

/-- Witness for claim C4: update the name of the sample row. -/
theorem c4_witness :
    ∃ u, (sampleDb.update_tag 1 (some "orc") none none none none).1 = some u
      ∧ u.id = 1
      ∧ ((some "orc" : Option String) = none → u.name = sampleTag.name)
      ∧ (∀ v, (some "orc" : Option String) = some v → u.name = v)
      ∧ ((none : Option String) = none → u.channel = sampleTag.channel)
      ∧ (∀ v, (none : Option String) = some v → u.channel = v)
      ∧ ((none : Option String) = none → u.scene = sampleTag.scene)
      ∧ (∀ v, (none : Option String) = some v → u.scene = some v)
      ∧ ((none : Option String) = none → u.npc = sampleTag.npc)
      ∧ (∀ v, (none : Option String) = some v → u.npc = some v)
      ∧ ((none : Option Int) = none → u.level = sampleTag.level)
      ∧ (∀ v, (none : Option Int) = some v → u.level = some v)
      ∧ u ∈ ((sampleDb.update_tag 1 (some "orc") none none none none).2).rows
      ∧ ((sampleDb.update_tag 1 (some "orc") none none none none).2).rows.filter
            (fun t => t.id != 1)
          = sampleDb.rows.filter (fun t => t.id != 1) :=
  c4_partial_update_frame sampleDb 1 (some "orc") none none none none
    sampleTag rfl

/-- Witness for claim C10: an all-None update of the sample row. -/
theorem c10_witness :
    ((none : Option String) = none → sampleTag.scene = sampleTag.scene)
    ∧ ((none : Option String) = none → sampleTag.npc = sampleTag.npc)
    ∧ ((none : Option Int) = none → sampleTag.level = sampleTag.level)
    ∧ (sampleTag.scene ≠ none → sampleTag.scene ≠ none)
    ∧ (sampleTag.npc ≠ none → sampleTag.npc ≠ none)
    ∧ (sampleTag.level ≠ none → sampleTag.level ≠ none) :=
  c10_null_field_keeps_value sampleDb 1 none none none none none
    sampleTag sampleTag rfl rfl

/-- An update rewrites rows in place and never changes the id column. -/
theorem update_rows_map_id (db : Database) (i : Int) (n c s p : Option String)
    (l : Option Int) :
    ((db.update_tag i n c s p l).2).rows.map Tag.id = db.rows.map Tag.id := by
  unfold Database.update_tag
  cases hex : db.get_tag i with
  | none => rfl
  | some ex =>
    simp only
    rw [List.map_map]
    apply List.map_congr_left
    intro t ht
    by_cases h : (t.id == i) = true
    · have h' : t.id = i := by simpa using h
      simp [Function.comp, h, h']
    · simp [Function.comp, h]

/-- In every reachable store state the ids of the live rows are pairwise
distinct. -/
theorem nodup_ids_reachable (db : Database) (h : Reachable db) :
    (db.rows.map Tag.id).Nodup := by
  induction h with
  | init => simp
  | create db n c s p l hr ih =>
    unfold Database.create_tag
    simp only
    rw [List.map_append, List.nodup_append]
    refine ⟨ih, by simp, ?_⟩
    intro a ha hb
    simp only [List.map_cons, List.map_nil, List.mem_singleton] at hb
    have hb' : a = nextId db := hb
    obtain ⟨u, hu, hua⟩ := List.mem_map.mp ha
    have hlt := id_lt_nextId db u hu
    rw [hua, hb'] at hlt
    exact lt_irrefl _ hlt
  | update db i n c s p l hr ih =>
    rw [update_rows_map_id]
    exact ih
  | deleteOne db i hr ih =>
    unfold Database.delete_tag
    exact List.Nodup.sublist ((List.filter_sublist db.rows).map Tag.id) ih
  | wipe db c s hr ih =>
    unfold Database.delete_tags_by_scene
    exact List.Nodup.sublist ((List.filter_sublist db.rows).map Tag.id) ih

/-- Claim C3 (amended): in every reachable store state the ids of the
live rows are pairwise distinct and a create assigns an id strictly
greater than every live id; but ids are not unique across the whole
history: without AUTOINCREMENT the rowid is one more than the largest one
currently in use, so after the row holding the largest id is deleted the
next create reuses that id (see the counterexample). -/
theorem c3_ids_unique_among_live (db : Database) (h : Reachable db)
    (n c : String) (s p : Option String) (l : Option Int) :
    (db.rows.map Tag.id).Nodup
    ∧ ∀ t ∈ db.rows, t.id < (db.create_tag n c s p l).1.id := by
  refine ⟨nodup_ids_reachable db h, ?_⟩
  intro t ht
  exact id_lt_nextId db t ht

/-- Counterexample to claim C3 as stated: after creating two tags (ids 1
and 2) and deleting the tag holding the largest id, the next create
returns id 2 again, so an id is reused across the history. -/
theorem c3_counterexample :
    ((Database.create_tag ⟨[]⟩ "a" "general" none none none).2.create_tag
        "b" "general" none none none).1.id = 2
    ∧ ((((Database.create_tag ⟨[]⟩ "a" "general" none none none).2.create_tag
        "b" "general" none none none).2.delete_tag 2).2.create_tag
        "c" "general" none none none).1.id = 2 := by
  constructor <;> rfl

/-- Witness for claim C3 (amended) at the one-row sample table, reached
by a single create. -/
theorem c3_witness :
    (sampleDb.rows.map Tag.id).Nodup
    ∧ ∀ t ∈ sampleDb.rows,
        t.id < (sampleDb.create_tag "a" "general" none none none).1.id :=
  c3_ids_unique_among_live sampleDb
    (Reachable.create ⟨[]⟩ "goblin" "general" (some "Cave") (some "Bob")
      (some 3) Reachable.init)
    "a" "general" none none none

/-!  Claims about the renderer.  -/

/-- Claim C8: a channel with no tags gets the distinct no-tags message,
never an empty grouped block; a channel with tags gets the grouped
block. -/
theorem c8_empty_channel_message (tags : List Tag) (ch : String) :
    (tags = [] → list_tags tags ch = "No tags in this channel.")
    ∧ (tags ≠ [] → list_tags tags ch = format_tags_by_scene tags ch)
    ∧ list_tags [] ch ≠ format_tags_by_scene [] ch := by
  refine ⟨?_, ?_, ?_⟩
  · intro h
    subst h
    rfl
  · intro h
    unfold list_tags
    rw [if_neg]
    simpa [List.isEmpty_iff] using h
  · intro h
    have h1 : list_tags [] ch = "No tags in this channel." := rfl
    have h2 : format_tags_by_scene [] ch = "" := rfl
    rw [h1, h2] at h
    exact absurd h (by decide)

/-!  Order lemmas for the NPC sort key.  -/

theorem npcKeyLe_total (a b : String) :
    npcKeyLe a b = true ∨ npcKeyLe b a = true := by
  unfold npcKeyLe
  cases hfa : a == "Story Tags" <;> cases hfb : b == "Story Tags" <;>
    simp [hfa, hfb, decide_eq_true_iff]
  · exact le_total _ _
  · exact le_total _ _

theorem npcKeyLe_trans (a b c : String) (hab : npcKeyLe a b = true)
    (hbc : npcKeyLe b c = true) : npcKeyLe a c = true := by
  unfold npcKeyLe at hab hbc ⊢
  cases hfa : a == "Story Tags" <;> cases hfb : b == "Story Tags" <;>
    cases hfc : c == "Story Tags" <;>
    simp [hfa, hfb, hfc, decide_eq_true_iff] at hab hbc ⊢ <;>
    try exact le_trans hab hbc

theorem npcKeyLe_to_story_eq_false (a : String) (ha : a ≠ "Story Tags") :
    npcKeyLe a "Story Tags" = false := by
  unfold npcKeyLe
  have hfa : (a == "Story Tags") = false := by simpa using ha
  simp [hfa]

theorem npcKeyLe_le_of_ne (a b : String) (ha : a ≠ "Story Tags")
    (hb : b ≠ "Story Tags") (h : npcKeyLe a b = true) : a ≤ b := by
  unfold npcKeyLe at h
  have hfa : (a == "Story Tags") = false := by simpa using ha
  have hfb : (b == "Story Tags") = false := by simpa using hb
  rw [hfa, hfb] at h
  simpa using h

theorem insortNpc_perm (x : String) (l : List String) :
    (insortNpc x l).Perm (x :: l) := by
  induction l with
  | nil => exact List.Perm.refl _
  | cons y ys ih =>
    unfold insortNpc
    by_cases h : npcKeyLe x y = true
    · rw [if_pos h]
    · rw [if_neg h]
      exact (ih.cons y).trans (List.Perm.swap x y ys)

theorem insortNpc_pairwise (x : String) (l : List String)
    (h : List.Pairwise (fun a b => npcKeyLe a b = true) l) :
    List.Pairwise (fun a b => npcKeyLe a b = true) (insortNpc x l) := by
  induction l with
  | nil => simp [insortNpc]
  | cons y ys ih =>
    obtain ⟨hy, hys⟩ := List.pairwise_cons.mp h
    unfold insortNpc
    by_cases hxy : npcKeyLe x y = true
    · rw [if_pos hxy]
      refine List.pairwise_cons.mpr ⟨?_, h⟩
      intro z hz
      rcases List.mem_cons.mp hz with rfl | hz'
      · exact hxy
      · exact npcKeyLe_trans x y z hxy (hy z hz')
    · rw [if_neg hxy]
      refine List.pairwise_cons.mpr ⟨?_, ih hys⟩
      intro z hz
      rcases List.mem_cons.mp ((insortNpc_perm x ys).mem_iff.mp hz) with rfl | hz'
      · rcases npcKeyLe_total z y with h' | h'
        · exact absurd h' hxy
        · exact h'
      · exact hy z hz'

theorem sortNpcKeys_perm (l : List String) : (sortNpcKeys l).Perm l := by
  induction l with
  | nil => exact List.Perm.refl _
  | cons x xs ih =>
    unfold sortNpcKeys
    simp only [List.foldr_cons]
    exact (insortNpc_perm x _).trans (ih.cons x)

theorem sortNpcKeys_pairwise (l : List String) :
    List.Pairwise (fun a b => npcKeyLe a b = true) (sortNpcKeys l) := by
  induction l with
  | nil => simp [sortNpcKeys]
  | cons x xs ih =>
    unfold sortNpcKeys
    simp only [List.foldr_cons]
    exact insortNpc_pairwise x _ ih

/-- In a list sorted by the NPC key, a present "Story Tags" label can only
sit at the head. -/
theorem story_tags_head (l : List String)
    (h : List.Pairwise (fun a b => npcKeyLe a b = true) l)
    (hm : "Story Tags" ∈ l) : l.head? = some "Story Tags" := by
  cases l with
  | nil => cases hm
  | cons a l' =>
    by_cases ha : a = "Story Tags"
    · rw [ha]
      rfl
    · exfalso
      have hm' : "Story Tags" ∈ l' := by
        rcases List.mem_cons.mp hm with h' | h'
        · exact absurd h'.symm ha
        · exact h'
      have hle := (List.pairwise_cons.mp h).1 _ hm'
      rw [npcKeyLe_to_story_eq_false a ha] at hle
      cases hle

/-- Stripping "Story Tags" from a list sorted by the NPC key leaves the
remaining labels in ascending lexical order. -/
theorem sorted_filter_no_story (l : List String)
    (h : List.Pairwise (fun a b => npcKeyLe a b = true) l) :
    List.Pairwise (fun a b : String => a ≤ b)
      (l.filter (fun a => a != "Story Tags")) := by
  have h2 := List.Pairwise.filter (fun a => a != "Story Tags") h
  refine List.Pairwise.imp_of_mem ?_ h2
  intro a b ha hb hab
  have ha' : a ≠ "Story Tags" := by simpa using (List.mem_filter.mp ha).2
  have hb' : b ≠ "Story Tags" := by simpa using (List.mem_filter.mp hb).2
  exact npcKeyLe_le_of_ne a b ha' hb' hab

/-- Inserting a tag adds its scene label at the end of the key order when
the label is new and leaves the key order alone otherwise. -/
theorem mapFst_insertTag (acc : SceneGroups) (s n : String) (t : Tag) :
    (insertTag acc s n t).map Prod.fst =
      if (acc.map Prod.fst).contains s then acc.map Prod.fst
      else acc.map Prod.fst ++ [s] := by
  induction acc with
  | nil => simp [insertTag]
  | cons q rest ih =>
    obtain ⟨k, npcs⟩ := q
    unfold insertTag
    by_cases hk : (k == s) = true
    · rw [if_pos hk]
      have hk' : k = s := by simpa using hk
      subst hk'
      simp [List.contains_cons]
    · rw [if_neg hk]
      have hk' : k ≠ s := by simpa using hk
      have hsk : (s == k) = false := by simpa using (Ne.symm hk')
      simp only [List.map_cons, ih, List.contains_cons, hsk, Bool.false_or]
      by_cases hc : ((rest.map Prod.fst).contains s) = true
      · rw [if_pos hc, if_pos hc]
      · rw [if_neg hc, if_neg hc]
        rfl

/-- The key order of the grouping fold is the first-seen fold over the
scene labels (generalised over the accumulator). -/
theorem mapFst_groupTags_aux (ch : String) (tags : List Tag) (acc : SceneGroups) :
    ((tags.foldl
        (fun a t => insertTag a (sceneLabel ch t) (npcLabel t) t) acc).map
          Prod.fst)
      = tags.foldl
          (fun seen t => if seen.contains (sceneLabel ch t) then seen
                         else seen ++ [sceneLabel ch t])
          (acc.map Prod.fst) := by
  induction tags generalizing acc with
  | nil => rfl
  | cons t ts ih =>
    simp only [List.foldl_cons]
    rw [ih, mapFst_insertTag]

/-- Claim C1: the renderer emits scene groups in first-seen order of the
scene labels of the input list (never sorted), and the NPC key order it
uses inside each scene group is a permutation of the keys of the group in
which a present "Story Tags" comes first and all other NPC names follow
in ascending lexical order. -/
theorem c1_listing_order (tags : List Tag) (ch : String) :
    (groupTags tags ch).map Prod.fst = firstSeen (tags.map (sceneLabel ch))
    ∧ ∀ g ∈ groupTags tags ch,
        (sortNpcKeys (g.2.map Prod.fst)).Perm (g.2.map Prod.fst)
        ∧ ("Story Tags" ∈ sortNpcKeys (g.2.map Prod.fst) →
            (sortNpcKeys (g.2.map Prod.fst)).head? = some "Story Tags")
        ∧ List.Pairwise (fun a b : String => a ≤ b)
            ((sortNpcKeys (g.2.map Prod.fst)).filter
              (fun a => a != "Story Tags")) := by
  constructor
  · unfold groupTags firstSeen
    rw [mapFst_groupTags_aux, List.foldl_map]
    rfl
  · intro g hg
    exact ⟨sortNpcKeys_perm _,
           fun hm => story_tags_head _ (sortNpcKeys_pairwise _) hm,
           sorted_filter_no_story _ (sortNpcKeys_pairwise _)⟩

/-- The three tags of the grouping example in the specification. -/
def demoA : Tag :=
  { id := 1, name := "A", channel := "general",
    scene := none, npc := none, level := none }

def demoB : Tag :=
  { id := 2, name := "B", channel := "general",
    scene := none, npc := some "Bob", level := none }

def demoC : Tag :=
  { id := 3, name := "C", channel := "general",
    scene := some "Cave", npc := none, level := none }

def demoTags : List Tag := [demoA, demoB, demoC]

/-- Witness for claim C1 at the example list: the scene key order and the
properties of the NPC key order of the "general" scene group. -/
theorem c1_witness :
    ((groupTags demoTags "general").map Prod.fst
        = firstSeen (demoTags.map (sceneLabel "general")))
    ∧ (("general", ([("Story Tags", [demoA]), ("Bob", [demoB])] : NpcGroups))
        ∈ groupTags demoTags "general")
    ∧ (sortNpcKeys (([("Story Tags", [demoA]), ("Bob", [demoB])] : NpcGroups).map
          Prod.fst)).Perm
        (([("Story Tags", [demoA]), ("Bob", [demoB])] : NpcGroups).map Prod.fst)
    ∧ ("Story Tags" ∈ sortNpcKeys
          (([("Story Tags", [demoA]), ("Bob", [demoB])] : NpcGroups).map Prod.fst) →
        (sortNpcKeys (([("Story Tags", [demoA]), ("Bob", [demoB])] : NpcGroups).map
            Prod.fst)).head? = some "Story Tags")
    ∧ List.Pairwise (fun a b : String => a ≤ b)
        ((sortNpcKeys (([("Story Tags", [demoA]), ("Bob", [demoB])] : NpcGroups).map
            Prod.fst)).filter (fun a => a != "Story Tags")) := by
  have hg : ("general", ([("Story Tags", [demoA]), ("Bob", [demoB])] : NpcGroups))
      ∈ groupTags demoTags "general" := by decide
  have h := c1_listing_order demoTags "general"
  have h2 := h.2 _ hg
  exact ⟨h.1, hg, h2.1, h2.2.1, h2.2.2⟩

/-!  Empty-string scene and npc labels (claim C9).  -/

theorem sceneLabel_normalizeEmpty (ch : String) (t : Tag) :
    sceneLabel ch (normalizeEmpty t) = sceneLabel ch t := by
  unfold sceneLabel normalizeEmpty pyOr
  cases hs : t.scene with
  | none => simp
  | some s =>
    by_cases h : (s == "") = true
    · have h' : s = "" := by simpa using h
      subst h'
      simp
    · have h' : s ≠ "" := by simpa using h
      simp [h']

theorem npcLabel_normalizeEmpty (t : Tag) :
    npcLabel (normalizeEmpty t) = npcLabel t := by
  unfold npcLabel normalizeEmpty pyOr
  cases hs : t.npc with
  | none => simp
  | some s =>
    by_cases h : (s == "") = true
    · have h' : s = "" := by simpa using h
      subst h'
      simp
    · have h' : s ≠ "" := by simpa using h
      simp [h']

theorem format_tag_normalizeEmpty (t : Tag) :
    format_tag (normalizeEmpty t) = format_tag t := rfl

/-- Apply a tag transformation to every tag stored in the inner groups. -/
def mapNpcGroups (f : Tag → Tag) (groups : NpcGroups) : NpcGroups :=
  groups.map (fun p => (p.1, p.2.map f))

/-- Apply a tag transformation to every tag stored in the scene groups. -/
def mapSceneGroups (f : Tag → Tag) (groups : SceneGroups) : SceneGroups :=
  groups.map (fun p => (p.1, mapNpcGroups f p.2))

theorem insertNpc_mapNpcGroups (f : Tag → Tag) (groups : NpcGroups)
    (n : String) (t : Tag) :
    insertNpc (mapNpcGroups f groups) n (f t)
      = mapNpcGroups f (insertNpc groups n t) := by
  induction groups with
  | nil => rfl
  | cons p rest ih =>
    obtain ⟨k, ts⟩ := p
    simp only [mapNpcGroups, List.map_cons]
    unfold insertNpc
    by_cases hk : (k == n) = true
    · rw [if_pos hk, if_pos hk]
      simp [List.map_append]
    · rw [if_neg hk, if_neg hk]
      simp only [List.map_cons]
      simpa [mapNpcGroups] using ih

theorem insertTag_mapSceneGroups (f : Tag → Tag) (groups : SceneGroups)
    (s n : String) (t : Tag)
    (hnpc : ∀ g nn tt, insertNpc (mapNpcGroups f g) nn (f tt)
      = mapNpcGroups f (insertNpc g nn tt)) :
    insertTag (mapSceneGroups f groups) s n (f t)
      = mapSceneGroups f (insertTag groups s n t) := by
  induction groups with
  | nil =>
    simp only [mapSceneGroups, List.map_nil]
    unfold insertTag
    simp only [List.map_cons, List.map_nil]
    rw [← hnpc [] n t]
    rfl
  | cons p rest ih =>
    obtain ⟨k, npcs⟩ := p
    simp only [mapSceneGroups, List.map_cons]
    unfold insertTag
    by_cases hk : (k == s) = true
    · rw [if_pos hk, if_pos hk]
      simp only [List.map_cons]
      rw [← hnpc npcs n t]
    · rw [if_neg hk, if_neg hk]
      simp only [List.map_cons]
      simpa [mapSceneGroups] using ih

theorem groupTags_map_aux (ch : String) (tags : List Tag) (acc : SceneGroups) :
    (tags.map normalizeEmpty).foldl
        (fun a t => insertTag a (sceneLabel ch t) (npcLabel t) t)
        (mapSceneGroups normalizeEmpty acc)
      = mapSceneGroups normalizeEmpty
          (tags.foldl (fun a t => insertTag a (sceneLabel ch t) (npcLabel t) t)
            acc) := by
  induction tags generalizing acc with
  | nil => rfl
  | cons t ts ih =>
    simp only [List.map_cons, List.foldl_cons]
    rw [sceneLabel_normalizeEmpty, npcLabel_normalizeEmpty,
        insertTag_mapSceneGroups normalizeEmpty acc _ _ t
          (insertNpc_mapNpcGroups normalizeEmpty),
        ih]

theorem groupTags_map_normalizeEmpty (tags : List Tag) (ch : String) :
    groupTags (tags.map normalizeEmpty) ch
      = mapSceneGroups normalizeEmpty (groupTags tags ch) := by
  unfold groupTags
  have h := groupTags_map_aux ch tags []
  simpa [mapSceneGroups] using h

theorem lookupNpc_mapNpcGroups (f : Tag → Tag) (groups : NpcGroups) (n : String) :
    lookupNpc (mapNpcGroups f groups) n = (lookupNpc groups n).map f := by
  induction groups with
  | nil => rfl
  | cons p rest ih =>
    obtain ⟨k, ts⟩ := p
    simp only [mapNpcGroups, List.map_cons]
    unfold lookupNpc
    by_cases hk : (k == n) = true
    · rw [if_pos hk, if_pos hk]
    · rw [if_neg hk, if_neg hk]
      simpa [mapNpcGroups] using ih

theorem renderNpcSection_map (n : String) (ts : List Tag) :
    renderNpcSection n (ts.map normalizeEmpty) = renderNpcSection n ts := by
  unfold renderNpcSection
  rw [List.map_map]
  have hmap : ts.map ((fun t => "\t\t" ++ format_tag t) ∘ normalizeEmpty)
      = ts.map (fun t => "\t\t" ++ format_tag t) :=
    List.map_congr_left (fun t _ => by
      simp only [Function.comp]
      rw [format_tag_normalizeEmpty])
  rw [hmap]

theorem renderScene_map (s : String) (npcs : NpcGroups) :
    renderScene s (mapNpcGroups normalizeEmpty npcs) = renderScene s npcs := by
  unfold renderScene
  dsimp only
  have hfst : (mapNpcGroups normalizeEmpty npcs).map Prod.fst
      = npcs.map Prod.fst := by
    simp [mapNpcGroups, List.map_map, Function.comp]
  rw [hfst]
  have hsec : (sortNpcKeys (npcs.map Prod.fst)).map
        (fun n => renderNpcSection n
          (lookupNpc (mapNpcGroups normalizeEmpty npcs) n))
      = (sortNpcKeys (npcs.map Prod.fst)).map
          (fun n => renderNpcSection n (lookupNpc npcs n)) :=
    List.map_congr_left (fun n _ => by
      rw [lookupNpc_mapNpcGroups, renderNpcSection_map])
  rw [hsec]

/-- Claim C9: the grouping tests Python falsiness, not null-ness, so a
tag whose scene is the empty string is grouped under the channel-name
label exactly as if its scene were unset, and a tag whose npc is the
empty string is grouped under "Story Tags" exactly as if its npc were
unset: replacing every empty-string scene or npc by the unset value
leaves the rendered listing unchanged. -/
theorem c9_empty_string_grouping (tags : List Tag) (ch : String) (t : Tag) :
    format_tags_by_scene (tags.map normalizeEmpty) ch
        = format_tags_by_scene tags ch
    ∧ (t.scene = some "" → sceneLabel ch t = ch)
    ∧ (t.npc = some "" → npcLabel t = "Story Tags") := by
  refine ⟨?_, ?_, ?_⟩
  · unfold format_tags_by_scene
    rw [groupTags_map_normalizeEmpty]
    unfold mapSceneGroups
    rw [List.map_map]
    congr 1
    exact List.map_congr_left (fun g _ => by
      simp only [Function.comp]
      exact renderScene_map g.1 g.2)
  · intro h
    unfold sceneLabel pyOr
    rw [h]
    rfl
  · intro h
    unfold npcLabel pyOr
    rw [h]
    rfl

/-- A tag with empty-string scene and npc, for the claim C9 witness. -/
def demoE : Tag :=
  { id := 4, name := "E", channel := "general",
    scene := some "", npc := some "", level := none }

/-- Witness for claim C9 at a one-tag list whose scene and npc are the
empty string. -/
theorem c9_witness :
    (format_tags_by_scene ([demoE].map normalizeEmpty) "general"
        = format_tags_by_scene [demoE] "general")
    ∧ (demoE.scene = some "" → sceneLabel "general" demoE = "general")
    ∧ (demoE.npc = some "" → npcLabel demoE = "Story Tags") :=
  c9_empty_string_grouping [demoE] "general" demoE

/-- Witness for claim C2 at the one-row sample table and its own scene. -/
theorem c2_witness :
    (sampleTag ∈ ((sampleDb.delete_tags_by_scene "general" (some "Cave")).2).rows
      ↔ sampleTag ∈ sampleDb.rows
        ∧ ¬(sampleTag.channel = "general" ∧ sampleTag.scene = some "Cave"))
    ∧ (sampleDb.delete_tags_by_scene "general" (some "Cave")).1
        + ((sampleDb.delete_tags_by_scene "general" (some "Cave")).2).rows.length
        = sampleDb.rows.length :=
  c2_delete_by_scene_exact sampleDb "general" (some "Cave") sampleTag

/-- Witness for claim C5 at the one-row sample table. -/
theorem c5_witness :
    ((sampleDb.create_tag "imp" "lair" none none none).2).get_tag
        ((sampleDb.create_tag "imp" "lair" none none none).1).id
      = some (sampleDb.create_tag "imp" "lair" none none none).1 :=
  c5_create_then_get_roundtrip sampleDb "imp" "lair" none none none

/-- Witness for claim C6 at the one-row sample table and id 1. -/
theorem c6_witness :
    ((sampleDb.delete_tag 1).1 = true ↔ sampleDb.get_tag 1 ≠ none)
    ∧ ((sampleDb.delete_tag 1).2).get_tag 1 = none
    ∧ (((sampleDb.delete_tag 1).2).delete_tag 1).1 = false :=
  c6_delete_semantics sampleDb 1

/-- Witness for claim C8 at the empty channel and a one-tag channel. -/
theorem c8_witness :
    (([demoA] : List Tag) = [] →
        list_tags [demoA] "general" = "No tags in this channel.")
    ∧ (([demoA] : List Tag) ≠ [] →
        list_tags [demoA] "general" = format_tags_by_scene [demoA] "general")
    ∧ list_tags [] "general" ≠ format_tags_by_scene [] "general" :=
  c8_empty_channel_message [demoA] "general"

end LitmPbp
